import Mathlib

/-! exServer: the readiness-multiplexing accept/serve loop of `src/main.cpp`

A shallow embedding of `main` (lines 151-279 of `src/exserver/src/main.cpp`):
the Listener Setup, the `select` loop, the accept step and the
receive / respond / close step, together with the C-string handling of the two
4096-byte stack buffers `request` and `page_buffer`.

Conventions of the embedding

* A descriptor and every system-call return value is an `Int`, as in the source
  (`int`, `ssize_t`); failure is the sentinel `-1` the source compares with.
* A byte is a `Nat` (the values `0..255` that `recv` and `fgetc` deliver);
  `0` is the C string terminator.
* A `char[4096]` array is a `List Byte` holding its cells. A read that walks off
  the end of the array, a store behind its last cell, the use of the pointer
  `getaddrinfo` left unset, `fgetc` on a null `FILE*` and an `FD_SET` outside
  `0 .. FD_SETSIZE-1` have no defined behaviour in C; the embedding stops in the
  status `undefined`.
* What the operating system answers (return values, ready descriptors, received
  bytes, the bytes of `misc/index.html`) is an `Input` record handed to each step;
  the code's reaction is the function `step`. The listening socket is blocking, which
  limits what `accept` can answer (`Input.acceptOnBlocking`).
* `trace` is a ghost field: the system calls performed and the lines written to
  `std::cerr`, oldest first. The informational `std::clog` lines are not recorded;
  the one that reads a buffer (line 228, `std::clog << request`) is modelled by the
  read it performs.
-/

namespace ExServer

/-- One byte of a buffer, a file or a socket stream. -/
abbrev Byte := Nat

/-- Size of the `fd_set` bit array of `<sys/select.h>`. -/
def FD_SETSIZE : Int := 1024

/-- Value of `EXIT_FAILURE` in `<cstdlib>`. -/
def EXIT_FAILURE : Int := 1

/-- Capacity of `char request[4096]` and of `char page_buffer[4096]`. -/
def BUFFER_SIZE : Nat := 4096

/-! ## C strings inside a fixed array -/

/-- C `strspn(s, accept)`, `s` pointing at the head of the array cells `mem`: the
number of leading bytes that occur in `accept`. The scan stops at the terminator;
`none` when it leaves the array before finding one. -/
def strspn : List Byte → List Byte → Option Nat
  | [], _ => none
  | c :: rest, accept =>
    if c = 0 then some 0
    else if c ∈ accept then (strspn rest accept).map (· + 1)
    else some 0

/-- C `strcspn(s, reject)`: the number of leading bytes that do not occur in
`reject`. The scan stops at the terminator; `none` when it leaves the array. -/
def strcspn : List Byte → List Byte → Option Nat
  | [], _ => none
  | c :: rest, reject =>
    if c = 0 then some 0
    else if c ∈ reject then some 0
    else (strcspn rest reject).map (· + 1)

/-- C `strlen(s)`: the number of bytes before the terminator; `none` when the scan
leaves the array before finding one. -/
def strlen : List Byte → Option Nat
  | [] => none
  | c :: rest => if c = 0 then some 0 else (strlen rest).map (· + 1)

/-- Result of the first call `strtok(s, delim)` on an array. -/
inductive StrtokResult where
  /-- the scan walked off the end of the array -/
  | overrun
  /-- the call returned `NULL` -/
  | null
  /-- the call returned `s + start`, a string of `len` bytes -/
  | token (start : Nat) (len : Nat)
  deriving DecidableEq, Repr

/-- C `strtok(s, delim)` with `s != NULL` (the only call the source makes): skip the
leading delimiter bytes, return `NULL` when the string ends there, otherwise return
the run of bytes up to the next delimiter or the terminator. -/
def strtok (mem : List Byte) (delim : List Byte) : StrtokResult :=
  match strspn mem delim with
  | none => .overrun
  | some start =>
    match mem.drop start with
    | [] => .overrun
    | c :: _ =>
      if c = 0 then .null
      else
        match strcspn (mem.drop start) delim with
        | none => .overrun
        | some len => .token start len

/-- The delimiter string `" "` of `strtok(request, " ")`: the space byte alone. -/
def delimiters : List Byte := [32]

/-- The array `char request[4096] = { 0 }` after `recv(i, request, 4096, 0)` stored
the bytes `data` in it: at most 4096 bytes are stored, the other cells stay zero. -/
def recvInto (data : List Byte) : List Byte :=
  (data ++ List.replicate BUFFER_SIZE 0).take BUFFER_SIZE

/-- The string returned by `strtok(mem, " ")`, `none` for `NULL` and for an overrun. -/
def tokenOf (mem : List Byte) : Option (List Byte) :=
  match strtok mem delimiters with
  | .token start len => some ((mem.drop start).take len)
  | _ => none

/-- Lines 219-238 on the received bytes `data`: the string `request_type` points at
when line 238 prints it. `none` when printing `request` at line 228 leaves the array,
or when `strtok(request, " ")` returns `NULL`. -/
def request_type (data : List Byte) : Option (List Byte) :=
  match strlen (recvInto data) with
  | none => none
  | some _ => tokenOf (recvInto data)

/-! ## Loading `misc/index.html` into `page_buffer` -/

/-- The stack around `page_buffer` while the file is copied. -/
structure PageMemory where
  /-- the 4096 cells of `char page_buffer[4096]` -/
  page_buffer : List Byte
  /-- the bytes stored at `page_buffer + 4096`, `page_buffer + 4097`, ...: behind the
  last cell of the array -/
  beyond : List Byte
  deriving DecidableEq, Repr

/-- The declaration `char page_buffer[4096] = { 0 }`. -/
def PageMemory.zero : PageMemory :=
  { page_buffer := List.replicate BUFFER_SIZE 0, beyond := [] }

/-- The loop `while ((c = fgetc(page)) != EOF) { *page_buffer_iterator++ = c; }`:
`file` holds the bytes `fgetc` still has to deliver, `it` is the offset of
`page_buffer_iterator` from `page_buffer`. The loop has no bound check. -/
def fgetcLoop : List Byte → Nat → PageMemory → PageMemory
  | [], _, m => m
  | c :: file, it, m =>
    fgetcLoop file (it + 1)
      (if it < BUFFER_SIZE then { m with page_buffer := m.page_buffer.set it c }
       else { m with beyond := m.beyond ++ [c] })

/-- Lines 240-251: the zeroed `page_buffer` after the whole file was copied. -/
def loadPage (file : List Byte) : PageMemory :=
  fgetcLoop file 0 PageMemory.zero

/-- The string literal `response` of lines 253-257. -/
def response : String :=
  "HTTP/1.1 200 OK\r\nConnection: close\r\nContent-Type: text/html; charset=UTF-8\r\n\r\n"

/-- The cells of the literal `response`: its characters and the terminator. -/
def responseCells : List Byte :=
  response.toList.map Char.toNat ++ [0]

/-! ## The machine -/

/-- A system call the process performed, or a line it wrote to `std::cerr`. -/
inductive Sys where
  /-- a line written to `std::cerr` -/
  | cerr (msg : String)
  /-- `select(nfds, &read_sockets_set, NULL, NULL, NULL)` -/
  | select (nfds : Int)
  /-- `accept(server_socket, ...)` and the value it returned -/
  | accept (ret : Int)
  /-- `recv(fd, request, 4096, 0)` -/
  | recv (fd : Int)
  /-- `fopen("misc/index.html", "r")` and the `fgetc` calls up to `EOF` -/
  | fopen
  /-- `send(fd, bytes, length, 0)`: the bytes handed to the call -/
  | send (fd : Int) (bytes : List Byte)
  /-- `close(fd)` -/
  | close (fd : Int)
  deriving DecidableEq, Repr

/-- Where the process stands. -/
inductive Status where
  /-- inside `main`, before any `return` -/
  | running
  /-- `main` returned `code` -/
  | exited (code : Int)
  /-- the process did something C leaves undefined -/
  | undefined
  deriving DecidableEq, Repr

/-- Control point inside `while (true)`. -/
inductive Pc where
  /-- at the top of the body, line 189 -/
  | top
  /-- at the test `i <= max_socket` of the `for` loop of line 196, with the
  `read_sockets_set` that `select` filled in -/
  | loop (read_sockets_set : Finset Int) (i : Int)
  deriving DecidableEq

/-- The variables of `main` from line 181 on, plus the ghost trace. -/
structure State where
  server_socket : Int
  main_sockets_set : Finset Int
  max_socket : Int
  pc : Pc
  status : Status
  trace : List Sys
  deriving DecidableEq

/-- What the operating system answers to the four Listener Setup calls. -/
structure SetupInput where
  /-- return value of `getaddrinfo`: `0` on success, an `EAI_` code otherwise -/
  getaddrinfo_ret : Int
  /-- return value of `socket`: a descriptor, or `-1` -/
  socket_ret : Int
  /-- return value of `bind`: `0` on success -/
  bind_ret : Int
  /-- return value of `listen`: `0` on success, `-1` otherwise -/
  listen_ret : Int

/-- What the operating system answers to the call a loop step makes; a step reads
only the fields of the call it performs. -/
structure Input where
  /-- return value of `select` -/
  select_ret : Int
  /-- the descriptors that are readable when `select` returns -/
  ready : Finset Int
  /-- return value of `accept`: a descriptor, or `-1` -/
  accept_ret : Int
  /-- `errno` after `accept`, meaningful when the call returned `-1` -/
  accept_errno : Int
  /-- return value of `recv` -/
  recv_ret : Int
  /-- the bytes `recv` stored in `request` -/
  recv_data : List Byte
  /-- what `fopen("misc/index.html", "r")` finds: the bytes of the file, or `none`
  when the call returns `NULL` -/
  page : Option (List Byte)

/-- `main` returns `EXIT_FAILURE` after performing `calls`. -/
def State.fail (s : State) (calls : List Sys) : State :=
  { s with status := .exited EXIT_FAILURE, trace := s.trace ++ calls }

/-- Lines 151-186. `getaddrinfo`'s return value is not looked at; when the call
failed, `server_address` is still unset at the `socket` call that reads through it. -/
def listenerSetup (e : SetupInput) : State :=
  let s0 : State :=
    { server_socket := e.socket_ret, main_sockets_set := ∅, max_socket := e.socket_ret,
      pc := .top, status := .running, trace := [] }
  if e.getaddrinfo_ret ≠ 0 then { s0 with status := .undefined }
  else if e.socket_ret = -1 then s0.fail [.cerr "socket() failed"]
  else if e.bind_ret ≠ 0 then s0.fail [.cerr "bind() failed"]
  else if e.listen_ret = -1 then s0.fail [.cerr "listen() failed"]
  else if 0 ≤ e.socket_ret ∧ e.socket_ret < FD_SETSIZE then
    { s0 with main_sockets_set := {e.socket_ret} }
  else { s0 with status := .undefined }

/-- Lines 189-194: snapshot, `select`, and entry into the `for` loop at `i = 1`.
`select` leaves in `read_sockets_set` the members below `nfds` that are ready. -/
def selectStep (s : State) (inp : Input) : State :=
  let nfds := s.max_socket + 1
  if inp.select_ret = -1 then s.fail [.select nfds, .cerr "select() failed"]
  else
    { s with
      pc := .loop (s.main_sockets_set.filter (fun fd => fd < nfds ∧ fd ∈ inp.ready)) 1,
      trace := s.trace ++ [.select nfds] }

/-- Lines 199-217, the branch `i == server_socket`. -/
def acceptStep (s : State) (rd : Finset Int) (i : Int) (inp : Input) : State :=
  let client_socket := inp.accept_ret
  if client_socket = -1 then s.fail [.accept client_socket, .cerr "accept() failed"]
  else if 0 ≤ client_socket ∧ client_socket < FD_SETSIZE then
    { s with
      main_sockets_set := insert client_socket s.main_sockets_set,
      max_socket := if client_socket > s.max_socket then client_socket else s.max_socket,
      pc := .loop rd (i + 1),
      trace := s.trace ++ [.accept client_socket] }
  else { s with status := .undefined, trace := s.trace ++ [.accept client_socket] }

/-- Lines 219-275, the branch of a client descriptor. Line 228 prints `request` as a
string, so the array is read up to its terminator before `strtok` is called. -/
def clientStep (s : State) (rd : Finset Int) (i : Int) (inp : Input) : State :=
  let request := recvInto inp.recv_data
  let bytes_received := inp.recv_ret
  if bytes_received < 1 then
    { s with
      main_sockets_set := s.main_sockets_set.erase i,
      pc := .loop rd (i + 1),
      trace := s.trace ++ [.recv i, .close i] }
  else
    match strlen request with
    | none => { s with status := .undefined, trace := s.trace ++ [.recv i] }
    | some _ =>
      match strtok request delimiters with
      | .overrun => { s with status := .undefined, trace := s.trace ++ [.recv i] }
      | .null => s.fail [.recv i, .cerr "Failed to get HTTP request method"]
      | .token _ _ =>
        match inp.page with
        | none => { s with status := .undefined, trace := s.trace ++ [.recv i, .fopen] }
        | some file =>
          let m := loadPage file
          if m.beyond ≠ [] then
            { s with status := .undefined, trace := s.trace ++ [.recv i, .fopen] }
          else
            match strlen responseCells, strlen m.page_buffer with
            | some n, some k =>
              { s with
                main_sockets_set := s.main_sockets_set.erase i,
                pc := .loop rd (i + 1),
                trace := s.trace ++
                  [.recv i, .fopen, .send i (responseCells.take n),
                   .send i (m.page_buffer.take k), .close i] }
            | _, _ => { s with status := .undefined, trace := s.trace ++ [.recv i, .fopen] }

/-- One step of `while (true) { ... }`: the `select` call, or one evaluation of the
`for` loop's test followed by the body for that `i`. -/
def step (s : State) (inp : Input) : State :=
  match s.status with
  | .running =>
    match s.pc with
    | .top => selectStep s inp
    | .loop rd i =>
      if i ≤ s.max_socket then
        if i ∈ rd then
          if i = s.server_socket then acceptStep s rd i inp
          else clientStep s rd i inp
        else { s with pc := .loop rd (i + 1) }
      else { s with pc := .top }
  | _ => s

/-- The process after the operating system answered `inputs`, one per step. -/
def run (s : State) (inputs : List Input) : State :=
  inputs.foldl step s

/-! ## Concrete runs used below -/

/-- Bytes of an ASCII text. -/
def bytesOf (text : String) : List Byte :=
  text.toList.map Char.toNat

/-- A default answer record: `select` returns with nothing ready, a receive returns 0
and the file is empty. A step reads only the fields of the call it makes. -/
def quiet : Input :=
  { select_ret := 1, ready := ∅, accept_ret := -1, accept_errno := 0,
    recv_ret := 0, recv_data := [], page := some [] }

/-- Answers of a Listener Setup in which every call succeeds; `socket` returns 3. -/
def setupOk : SetupInput :=
  { getaddrinfo_ret := 0, socket_ret := 3, bind_ret := 0, listen_ret := 0 }

/-- Answers that let the listener accept client 4, end the pass, and bring the next
pass to `i = 4` with client 4 ready. -/
def toClient : List Input :=
  [{ quiet with ready := {3} }, quiet, quiet, { quiet with accept_ret := 4 }, quiet,
   quiet, { quiet with ready := {4} }, quiet, quiet, quiet]

/-- Client 4 was accepted in an earlier pass, is ready, and the pass stands at `i = 4`. -/
def atClient : State :=
  run (listenerSetup setupOk) toClient

/-! ## What the trace says about connections -/

/-- Effect of one call on the set of open client connections: a descriptor returned
by `accept` enters the set, a closed descriptor leaves it. -/
def trackOpen (o : Finset Int) : Sys → Finset Int
  | .accept ret => if ret = -1 then o else insert ret o
  | .close fd => o.erase fd
  | _ => o

/-- The descriptors that `accept` has returned and that have not been closed since,
read off the trace. -/
def openClients (trace : List Sys) : Finset Int :=
  trace.foldl trackOpen ∅

/-- Effect of one call on the number of receives on the connection `fd`: the count
starts again from zero when `accept` returns `fd`, the start of a new connection. A
`close` does not reset it. -/
def trackRecv (fd : Int) (n : Nat) : Sys → Nat
  | .accept ret => if ret = fd then 0 else n
  | .recv r => if r = fd then n + 1 else n
  | _ => n

/-- Number of `recv` calls on `fd` since `accept` last returned `fd`. -/
def recvCount (fd : Int) (trace : List Sys) : Nat :=
  trace.foldl (trackRecv fd) 0

/-- Effect of one call on the number of writes on the connection `fd`. -/
def trackSend (fd : Int) (n : Nat) : Sys → Nat
  | .accept ret => if ret = fd then 0 else n
  | .send w _ => if w = fd then n + 1 else n
  | _ => n

/-- Number of `send` calls on `fd` since `accept` last returned `fd`. -/
def sendCount (fd : Int) (trace : List Sys) : Nat :=
  trace.foldl (trackSend fd) 0

/-- Walk through `calls`, starting with `r` receives and `w` writes on the connection
`fd`: before the first call and after each call there is at most one receive and at
most two writes. -/
def within (fd : Int) : Nat → Nat → List Sys → Bool
  | r, w, [] => decide (r ≤ 1) && decide (w ≤ 2)
  | r, w, c :: rest =>
    decide (r ≤ 1) && decide (w ≤ 2) && within fd (trackRecv fd r c) (trackSend fd w c) rest

/-- At every moment of the trace (after each of its calls) the connection `fd` has at
most one receive and at most two writes behind it. -/
def Bounded (fd : Int) (trace : List Sys) : Prop :=
  ∀ t : List Sys, t <+: trace → recvCount fd t ≤ 1 ∧ sendCount fd t ≤ 2

/-! ## Invariants, as predicates on states -/

/-- The Interest Set of a running state is the listener plus the open clients. -/
def InterestInv (s : State) : Prop :=
  s.status = .running →
    s.main_sockets_set = insert s.server_socket (openClients s.trace)

/-- Every member of the Interest Set of a running state is a descriptor between 0
and `max_socket`. -/
def BoundInv (s : State) : Prop :=
  s.status = .running → ∀ fd ∈ s.main_sockets_set, 0 ≤ fd ∧ fd ≤ s.max_socket

/-- The descriptors of `read_sockets_set` that the pass has not visited yet are still
members of the Interest Set. -/
def ReadyInv (s : State) : Prop :=
  s.status = .running → ∀ rd i, s.pc = .loop rd i →
    ∀ fd ∈ rd, i ≤ fd → fd ∈ s.main_sockets_set

/-- A member of the Interest Set has had no receive and no write since it was
accepted. -/
def FreshInv (s : State) : Prop :=
  s.status = .running → ∀ fd ∈ s.main_sockets_set,
    recvCount fd s.trace = 0 ∧ sendCount fd s.trace = 0

/-- No connection ever has more than one receive and two writes behind it. -/
def ShotInv (s : State) : Prop :=
  ∀ fd : Int, Bounded fd s.trace

/-! ## The request method, in the words of the specification -/

/-- The whitespace bytes the specification names: space, tab, carriage return and
line feed. -/
def isWhitespace (b : Byte) : Bool :=
  b = 32 || b = 9 || b = 13 || b = 10

/-- The space byte, the only byte of the delimiter string `" "`. -/
def isSpace (b : Byte) : Bool :=
  b = 32

/-- First token of `bytes` for the delimiter bytes `delim`: the maximal run of
non-delimiter bytes that follows any leading delimiters; `none` when `bytes` holds
nothing but delimiters. -/
def firstToken (delim : Byte → Bool) (bytes : List Byte) : Option (List Byte) :=
  match bytes.dropWhile delim with
  | [] => none
  | b :: rest => some ((b :: rest).takeWhile (fun c => !delim c))

/-- The bytes of a buffer read as a C string: those before the first zero byte. -/
def cString (bytes : List Byte) : List Byte :=
  bytes.takeWhile (· ≠ 0)

/-- The request of the specification's scenario, answered from a four-byte file. -/
def getRequest : Input :=
  { quiet with recv_ret := 18, recv_data := bytesOf "GET / HTTP/1.1\r\n\r\n",
               page := some (bytesOf "<p/>") }

/-! ## The steps of one pass -/

/-- An array that holds a zero byte holds a terminated string. -/
theorem strlen_of_mem_zero (mem : List Byte) (h : 0 ∈ mem) : ∃ q, strlen mem = some q := by
  induction mem with
  | nil => simp at h
  | cons c rest ih =>
    by_cases hc : c = 0
    · exact ⟨0, by simp [strlen, hc]⟩
    · have hrest : 0 ∈ rest := by
        rcases List.mem_cons.mp h with h0 | h0
        · exact absurd h0.symm hc
        · exact h0
      obtain ⟨q, hq⟩ := ih hrest
      exact ⟨q + 1, by simp [strlen, hc, hq]⟩

/-- When `strtok` returns `NULL` it stopped at a terminator inside the array. -/
theorem strlen_of_strtok_null (mem delim : List Byte) (h : strtok mem delim = .null) :
    ∃ q, strlen mem = some q := by
  unfold strtok at h
  split at h
  · simp at h
  · rename_i start _
    split at h
    · simp at h
    · rename_i c tl hdrop
      split_ifs at h with hc
      · apply strlen_of_mem_zero
        have : c ∈ mem.drop start := by rw [hdrop]; simp
        rw [hc] at this
        exact List.mem_of_mem_drop this
      · split at h <;> simp at h

/-- A request that yields a method token is terminated and `strtok` returns a token. -/
theorem request_type_some (data tok : List Byte) (h : request_type data = some tok) :
    ∃ q a b, strlen (recvInto data) = some q ∧
      strtok (recvInto data) delimiters = .token a b := by
  unfold request_type at h
  split at h
  · simp at h
  · rename_i q hq
    unfold tokenOf at h
    split at h
    · rename_i a b hst
      exact ⟨q, a, b, hq, hst⟩
    · simp at h

/-- The step taken at a ready client descriptor is `clientStep`. -/
theorem step_client (s : State) (rd : Finset Int) (i : Int) (inp : Input)
    (hrun : s.status = .running) (hpc : s.pc = .loop rd i) (hle : i ≤ s.max_socket)
    (hready : i ∈ rd) (hclient : i ≠ s.server_socket) :
    step s inp = clientStep s rd i inp := by
  simp [step, hrun, hpc, hle, hready, hclient]

/-- C3. A receive that returns zero or a negative value on a ready client descriptor
`i` removes `i` from the Interest Set and closes it (the step performs the calls
`recv` and `close` on `i` and nothing else, so no byte is written anywhere), leaves
every other member of the Interest Set and `max_socket` as they were, and the server
keeps running: the pass goes on at `i + 1`. -/
theorem empty_receive_drops_client (s : State) (rd : Finset Int) (i : Int) (inp : Input)
    (hrun : s.status = .running) (hpc : s.pc = .loop rd i) (hle : i ≤ s.max_socket)
    (hready : i ∈ rd) (hclient : i ≠ s.server_socket) (hrecv : inp.recv_ret < 1) :
    step s inp =
        { s with main_sockets_set := s.main_sockets_set.erase i, pc := .loop rd (i + 1),
                 trace := s.trace ++ [.recv i, .close i] } ∧
      i ∉ (step s inp).main_sockets_set ∧
      (∀ j, j ≠ i → (j ∈ (step s inp).main_sockets_set ↔ j ∈ s.main_sockets_set)) ∧
      (∀ fd bytes, Sys.send fd bytes ∉ (step s inp).trace.drop s.trace.length) ∧
      (step s inp).status = .running ∧
      (step s inp).pc = .loop rd (i + 1) := by
  have h : step s inp =
      { s with main_sockets_set := s.main_sockets_set.erase i, pc := .loop rd (i + 1),
               trace := s.trace ++ [.recv i, .close i] } := by
    rw [step_client s rd i inp hrun hpc hle hready hclient]
    simp [clientStep, hrecv]
  refine ⟨h, ?_⟩
  rw [h]
  refine ⟨by simp, ?_, ?_, hrun, rfl⟩
  · intro j hj
    simp [Finset.mem_erase, hj]
  · intro fd bytes
    simp

/-- Witness of C3: client 4 is ready and its `recv` returns 0. -/
theorem empty_receive_drops_client_witness :
    (step atClient quiet).main_sockets_set = {3} ∧
      (step atClient quiet).trace = atClient.trace ++ [.recv 4, .close 4] ∧
      (step atClient quiet).status = .running :=
  have h := empty_receive_drops_client atClient {4} 4 quiet
    (by decide) (by decide) (by decide) (by decide) (by decide) (by decide)
  ⟨by rw [h.1]; decide, by rw [h.1], h.2.2.2.2.1⟩

/-- C6. When the receive on a ready client descriptor returns at least one byte and
`strtok` returns `NULL`, the step performs the `recv`, writes the line
"Failed to get HTTP request method" to `std::cerr` and returns `EXIT_FAILURE`, which
is not zero: no `send` on any descriptor and no `fopen` take place. -/
theorem no_method_is_fatal (s : State) (rd : Finset Int) (i : Int) (inp : Input)
    (hrun : s.status = .running) (hpc : s.pc = .loop rd i) (hle : i ≤ s.max_socket)
    (hready : i ∈ rd) (hclient : i ≠ s.server_socket) (hrecv : 1 ≤ inp.recv_ret)
    (hnull : strtok (recvInto inp.recv_data) delimiters = .null) :
    step s inp =
        { s with status := .exited EXIT_FAILURE,
                 trace := s.trace ++ [.recv i, .cerr "Failed to get HTTP request method"] } ∧
      (∀ fd bytes, Sys.send fd bytes ∉ (step s inp).trace.drop s.trace.length) ∧
      Sys.fopen ∉ (step s inp).trace.drop s.trace.length ∧
      (step s inp).status = .exited EXIT_FAILURE ∧ EXIT_FAILURE ≠ 0 := by
  have h : step s inp =
      { s with status := .exited EXIT_FAILURE,
               trace := s.trace ++ [.recv i, .cerr "Failed to get HTTP request method"] } := by
    rw [step_client s rd i inp hrun hpc hle hready hclient]
    have hnot : ¬ inp.recv_ret < 1 := by omega
    obtain ⟨q, hq⟩ := strlen_of_strtok_null _ _ hnull
    simp [clientStep, hnot, hq, hnull, State.fail]
  refine ⟨h, ?_⟩
  rw [h]
  refine ⟨?_, ?_, rfl, by decide⟩
  · intro fd bytes
    simp
  · simp

/-- Witness of C6: client 4 sends the single byte `' '`. -/
theorem no_method_is_fatal_witness :
    (step atClient { quiet with recv_ret := 1, recv_data := [32] }).status
      = .exited EXIT_FAILURE :=
  (no_method_is_fatal atClient {4} 4 { quiet with recv_ret := 1, recv_data := [32] }
    (by decide) (by decide) (by decide) (by decide) (by decide) (by decide)
    (by decide)).2.2.2.1

theorem openClients_append (t u : List Sys) :
    openClients (t ++ u) = u.foldl trackOpen (openClients t) := by
  simp [openClients, List.foldl_append]

theorem interestInv_setup (e : SetupInput) : InterestInv (listenerSetup e) := by
  unfold InterestInv listenerSetup
  intro h
  split_ifs at h ⊢ <;> simp_all [State.fail, openClients]

theorem interestInv_step (s : State) (inp : Input) (h : InterestInv s) :
    InterestInv (step s inp) := by
  unfold InterestInv at h ⊢
  intro hrun
  unfold step at hrun ⊢
  split at hrun
  · rename_i hs
    have hI := h hs
    split at hrun
    · -- the select call
      simp only [selectStep] at hrun ⊢
      split_ifs at hrun ⊢
      · simp [State.fail] at hrun
      · simp [openClients_append, trackOpen, hI]
    · rename_i rd i hpc
      split_ifs at hrun ⊢ with h1 h2 h3
      · -- accept
        simp only [acceptStep] at hrun ⊢
        split_ifs at hrun ⊢ with h4 h5 h6 <;>
          first
          | (simp [State.fail] at hrun; done)
          | simp [openClients_append, trackOpen, hI, h4, Finset.Insert.comm]
      · -- client
        have herase : (insert s.server_socket (openClients s.trace)).erase i
            = insert s.server_socket ((openClients s.trace).erase i) :=
          Finset.erase_insert_of_ne (Ne.symm h3)
        rcases hq : strlen (recvInto inp.recv_data) with _ | q <;>
          rcases hst : strtok (recvInto inp.recv_data) delimiters with _ | _ | ⟨a, b⟩ <;>
          rcases hp : inp.page with _ | file <;>
          simp only [clientStep, hq, hst, hp] at hrun ⊢ <;>
          split_ifs at hrun ⊢ <;>
          first
          | (simp [State.fail] at hrun; done)
          | (simp [openClients_append, trackOpen, hI, herase]; done)
          | skip
        all_goals
          rcases hl1 : strlen responseCells with _ | n <;>
          rcases hl2 : strlen (loadPage file).page_buffer with _ | k <;>
          simp only [hl1, hl2] at hrun ⊢ <;>
          first
          | simp [State.fail] at hrun
          | simp [openClients_append, trackOpen, hI, herase]
      · simpa using hI
      · simpa using hI
  · rename_i hs
    exact absurd hrun (by simpa using hs)

theorem interestInv_run (inputs : List Input) :
    ∀ s : State, InterestInv s → InterestInv (run s inputs) := by
  induction inputs with
  | nil => intro s h; exact h
  | cons inp rest ih =>
    intro s h
    simpa [run] using ih (step s inp) (interestInv_step s inp h)

/-- C1. For every outcome of the Listener Setup and every finite sequence of answers
of the operating system (wait results, accept results, receive results), in every
state in which the server is still running the Interest Set `main_sockets_set` is
exactly the listening descriptor together with the descriptors that `accept` has
returned and that have not been closed since; in particular the listening descriptor
is a member. Holds for every accept result, hence for those that return a descriptor
not currently open. -/
theorem interest_set_invariant (e : SetupInput) (inputs : List Input)
    (hrun : (run (listenerSetup e) inputs).status = .running) :
    (run (listenerSetup e) inputs).main_sockets_set
        = insert (run (listenerSetup e) inputs).server_socket
            (openClients (run (listenerSetup e) inputs).trace) ∧
      (run (listenerSetup e) inputs).server_socket
        ∈ (run (listenerSetup e) inputs).main_sockets_set := by
  have h := interestInv_run inputs (listenerSetup e) (interestInv_setup e) hrun
  refine ⟨h, ?_⟩
  rw [h]
  exact Finset.mem_insert_self _ _

/-- Witness of C1: the listener 3 accepted client 4 and a new pass is under way. -/
theorem interest_set_invariant_witness :
    (run (listenerSetup setupOk) toClient).main_sockets_set = {3, 4} :=
  (interest_set_invariant setupOk toClient (by decide)).1.trans (by decide)

theorem recvCount_append (fd : Int) (t u : List Sys) :
    recvCount fd (t ++ u) = u.foldl (trackRecv fd) (recvCount fd t) := by
  simp [recvCount, List.foldl_append]

theorem sendCount_append (fd : Int) (t u : List Sys) :
    sendCount fd (t ++ u) = u.foldl (trackSend fd) (sendCount fd t) := by
  simp [sendCount, List.foldl_append]

/-- A walk that stays within the bounds does so at each of its prefixes. -/
theorem within_prefix (fd : Int) (calls : List Sys) :
    ∀ (r w : Nat), within fd r w calls = true → ∀ u : List Sys, u <+: calls →
      u.foldl (trackRecv fd) r ≤ 1 ∧ u.foldl (trackSend fd) w ≤ 2 := by
  induction calls with
  | nil =>
    intro r w h u hu
    rw [List.prefix_nil] at hu
    subst hu
    simpa [within] using h
  | cons c rest ih =>
    intro r w h u hu
    simp only [within, Bool.and_eq_true, decide_eq_true_eq] at h
    rcases List.prefix_cons_iff.mp hu with hnil | ⟨t, ht, hpre⟩
    · subst hnil
      exact ⟨h.1.1, h.1.2⟩
    · subst ht
      exact ih _ _ h.2 t hpre

/-- Calls appended to a bounded trace keep it bounded when their walk from the
current counts stays within the bounds. -/
theorem bounded_append (fd : Int) (trace added : List Sys) (h : Bounded fd trace)
    (hadd : within fd (recvCount fd trace) (sendCount fd trace) added = true) :
    Bounded fd (trace ++ added) := by
  intro t ht
  rcases List.prefix_or_prefix_of_prefix ht (List.prefix_append trace added) with h1 | h1
  · exact h t h1
  · obtain ⟨u, hu⟩ := h1
    subst hu
    have hpre : u <+: added := (List.prefix_append_right_inj trace).mp ht
    rw [recvCount_append, sendCount_append]
    exact within_prefix fd added _ _ hadd u hpre

theorem bounded_nil (fd : Int) : Bounded fd [] := by
  intro t ht
  rw [List.prefix_nil] at ht
  subst ht
  simp [recvCount, sendCount]

theorem readyInv_setup (e : SetupInput) : ReadyInv (listenerSetup e) := by
  unfold ReadyInv listenerSetup
  intro h rd i hpc
  split_ifs at h hpc <;> simp [State.fail] at hpc

theorem readyInv_step (s : State) (inp : Input) (h : ReadyInv s) :
    ReadyInv (step s inp) := by
  unfold ReadyInv at h ⊢
  intro hrun
  unfold step at hrun ⊢
  split at hrun
  · rename_i hs
    have hI := h hs
    split at hrun
    · simp only [selectStep] at hrun ⊢
      split_ifs at hrun ⊢
      · simp [State.fail] at hrun
      · intro rd i hpc' fd hfd _
        cases hpc'
        exact (Finset.mem_filter.mp hfd).1
    · rename_i rd i hpc
      have hmem := hI rd i hpc
      split_ifs at hrun ⊢ with h1 h2 h3
      · simp only [acceptStep] at hrun ⊢
        split_ifs at hrun ⊢ <;>
          first
          | (intro rd' i' hpc' fd hfd hle
             cases hpc'
             exact Finset.mem_insert_of_mem (hmem fd hfd (by omega)))
          | simp [State.fail] at hrun
      · rcases hq : strlen (recvInto inp.recv_data) with _ | q <;>
          rcases hst : strtok (recvInto inp.recv_data) delimiters with _ | _ | ⟨a, b⟩ <;>
          rcases hp : inp.page with _ | file <;>
          simp only [clientStep, hq, hst, hp] at hrun ⊢ <;>
          split_ifs at hrun ⊢ <;>
          first
          | (intro rd' i' hpc' fd hfd hle
             cases hpc'
             exact Finset.mem_erase.mpr ⟨by omega, hmem fd hfd (by omega)⟩)
          | simp [State.fail] at hrun
          | skip
        all_goals
          rcases hl1 : strlen responseCells with _ | n <;>
          rcases hl2 : strlen (loadPage file).page_buffer with _ | k <;>
          simp only [hl1, hl2] at hrun ⊢ <;>
          first
          | (intro rd' i' hpc' fd hfd hle
             cases hpc'
             exact Finset.mem_erase.mpr ⟨by omega, hmem fd hfd (by omega)⟩)
          | simp [State.fail] at hrun
      · intro rd' i' hpc' fd hfd hle
        cases hpc'
        exact hmem fd hfd (by omega)
      · intro rd' i' hpc'
        cases hpc'
  · rename_i hs
    exact absurd hrun (by simpa using hs)

/-- Calls on the connection `i` leave the counts of another descriptor alone. -/
theorem counts_untouched (fd i : Int) (hne : i ≠ fd) (l : List Sys) :
    (∀ c ∈ l, c = .recv i ∨ c = .fopen ∨ c = .close i ∨ (∃ bytes, c = .send i bytes) ∨
        ∃ msg, c = .cerr msg) →
      ∀ r w : Nat, l.foldl (trackRecv fd) r = r ∧ l.foldl (trackSend fd) w = w := by
  induction l with
  | nil => intro _ r w; simp
  | cons c rest ih =>
    intro hl r w
    have hc := hl c (by simp)
    have hrest := ih (fun c' hc' => hl c' (by simp [hc']))
    rcases hc with hc | hc | hc | ⟨bytes, hc⟩ | ⟨msg, hc⟩ <;> subst hc <;>
      simp only [List.foldl_cons, trackRecv, trackSend, hne, if_false] <;>
      exact hrest _ _

theorem freshInv_setup (e : SetupInput) : FreshInv (listenerSetup e) := by
  unfold FreshInv listenerSetup
  intro h
  split_ifs at h ⊢ <;> simp_all [State.fail, recvCount, sendCount]

theorem freshInv_step (s : State) (inp : Input) (h : FreshInv s) :
    FreshInv (step s inp) := by
  unfold FreshInv at h ⊢
  intro hrun
  unfold step at hrun ⊢
  split at hrun
  · rename_i hs
    have hI := h hs
    have herase : ∀ (i : Int) (added : List Sys),
        (∀ c ∈ added, c = .recv i ∨ c = .fopen ∨ c = .close i ∨
          (∃ bytes, c = .send i bytes) ∨ ∃ msg, c = .cerr msg) →
        ∀ fd ∈ s.main_sockets_set.erase i,
          recvCount fd (s.trace ++ added) = 0 ∧ sendCount fd (s.trace ++ added) = 0 := by
      intro i added hadd fd hfd
      obtain ⟨hne, hmem⟩ := Finset.mem_erase.mp hfd
      have hkeep := counts_untouched fd i (fun h => hne h.symm)
      rw [recvCount_append, sendCount_append,
        (hkeep added hadd (recvCount fd s.trace) 0).1,
        (hkeep added hadd 0 (sendCount fd s.trace)).2]
      exact hI fd hmem
    split at hrun
    · simp only [selectStep] at hrun ⊢
      split_ifs at hrun ⊢
      · simp [State.fail] at hrun
      · intro fd hfd
        simpa [recvCount_append, sendCount_append, trackRecv, trackSend] using hI fd hfd
    · rename_i rd i hpc
      split_ifs at hrun ⊢ with h1 h2 h3
      · simp only [acceptStep] at hrun ⊢
        split_ifs at hrun ⊢ <;>
          first
          | (intro fd hfd
             rcases Finset.mem_insert.mp hfd with hfd | hfd
             · subst hfd
               simp [recvCount_append, sendCount_append, trackRecv, trackSend]
             · have := hI fd hfd
               simp [recvCount_append, sendCount_append, trackRecv, trackSend, this])
          | simp [State.fail] at hrun
      · rcases hq : strlen (recvInto inp.recv_data) with _ | q <;>
          rcases hst : strtok (recvInto inp.recv_data) delimiters with _ | _ | ⟨a, b⟩ <;>
          rcases hp : inp.page with _ | file <;>
          simp only [clientStep, hq, hst, hp] at hrun ⊢ <;>
          split_ifs at hrun ⊢ <;>
          first
          | (exact herase i _ (by simp))
          | simp [State.fail] at hrun
          | skip
        all_goals
          rcases hl1 : strlen responseCells with _ | n <;>
          rcases hl2 : strlen (loadPage file).page_buffer with _ | k <;>
          simp only [hl1, hl2] at hrun ⊢ <;>
          first
          | (exact herase i _ (by simp))
          | simp [State.fail] at hrun
      · exact hI
      · exact hI
  · rename_i hs
    exact absurd hrun (by simpa using hs)

/-- Calls on the connection `i` keep the trace bounded for every other descriptor. -/
theorem bounded_other (fd i : Int) (hne : i ≠ fd) (trace added : List Sys)
    (h : Bounded fd trace)
    (hadd : ∀ c ∈ added, c = .recv i ∨ c = .fopen ∨ c = .close i ∨
      (∃ bytes, c = .send i bytes) ∨ ∃ msg, c = .cerr msg) :
    Bounded fd (trace ++ added) := by
  intro t ht
  rcases List.prefix_or_prefix_of_prefix ht (List.prefix_append trace added) with h1 | h1
  · exact h t h1
  · obtain ⟨u, hu⟩ := h1
    subst hu
    have hpre : u <+: added := (List.prefix_append_right_inj trace).mp ht
    have hu : ∀ c ∈ u, c = .recv i ∨ c = .fopen ∨ c = .close i ∨
        (∃ bytes, c = .send i bytes) ∨ ∃ msg, c = .cerr msg :=
      fun c hc => hadd c (hpre.subset hc)
    have hkeep := counts_untouched fd i hne u hu
    rw [recvCount_append, sendCount_append, (hkeep (recvCount fd trace) 0).1,
      (hkeep 0 (sendCount fd trace)).2]
    exact h trace (List.prefix_refl trace)

/-- Calls on a connection that has had no receive and no write keep the trace bounded
for it when their own walk stays within the bounds. -/
theorem bounded_own (i : Int) (trace added : List Sys) (h : Bounded i trace)
    (hz : recvCount i trace = 0 ∧ sendCount i trace = 0)
    (hadd : within i 0 0 added = true) : Bounded i (trace ++ added) :=
  bounded_append i trace added h (by rw [hz.1, hz.2]; exact hadd)

theorem shotInv_setup (e : SetupInput) : ShotInv (listenerSetup e) := by
  intro fd
  unfold listenerSetup
  split_ifs <;> first
    | exact bounded_nil fd
    | (simp only [State.fail]
       exact bounded_append fd [] _ (bounded_nil fd)
         (by simp [within, recvCount, sendCount, trackRecv, trackSend]))

theorem shotInv_step (s : State) (inp : Input) (hA : ReadyInv s) (hB : FreshInv s)
    (hC : ShotInv s) : ShotInv (step s inp) := by
  intro fd
  have hb := hC fd s.trace (List.prefix_refl _)
  by_cases hs : s.status = .running
  · unfold step
    simp only [hs]
    split
    · simp only [selectStep]
      split_ifs <;>
        simp only [State.fail] <;>
        exact bounded_append fd _ _ (hC fd)
          (by simp [within, trackRecv, trackSend, hb])
    · rename_i rd i hpc
      split_ifs with h1 h2 h3
      · simp only [acceptStep]
        split_ifs <;>
          simp only [State.fail] <;>
          refine bounded_append fd _ _ (hC fd) ?_ <;>
          simp [within, trackRecv, trackSend, hb] <;>
          split_ifs <;> simp [hb]
      · have hz := hB hs i (hA hs rd i hpc i h2 (le_refl i))
        have key : ∀ added : List Sys,
            (∀ c ∈ added, c = .recv i ∨ c = .fopen ∨ c = .close i ∨
              (∃ bytes, c = .send i bytes) ∨ ∃ msg, c = .cerr msg) →
            within i 0 0 added = true → Bounded fd (s.trace ++ added) := by
          intro added hadd hw
          by_cases hfd : i = fd
          · subst hfd
            exact bounded_own i s.trace added (hC i) hz hw
          · exact bounded_other fd i hfd s.trace added (hC fd) hadd
        rcases hq : strlen (recvInto inp.recv_data) with _ | q <;>
          rcases hst : strtok (recvInto inp.recv_data) delimiters with _ | _ | ⟨a, b⟩ <;>
          rcases hp : inp.page with _ | file <;>
          simp only [clientStep, hq, hst, hp] <;>
          split_ifs <;>
          first
          | exact key _ (by simp) (by simp [within, trackRecv, trackSend])
          | skip
        all_goals
          rcases hl1 : strlen responseCells with _ | n <;>
          rcases hl2 : strlen (loadPage file).page_buffer with _ | k <;>
          simp only [hl1, hl2] <;>
          exact key _ (by simp) (by simp [within, trackRecv, trackSend])
      · exact hC fd
      · exact hC fd
  · have hstep : step s inp = s := by
      unfold step
      split
      · rename_i hrun; exact absurd hrun hs
      · rfl
    rw [hstep]
    exact hC fd

/-- The three invariants that make connections single-shot. -/
theorem shot_run (inputs : List Input) :
    ∀ s : State, ReadyInv s → FreshInv s → ShotInv s →
      ReadyInv (run s inputs) ∧ FreshInv (run s inputs) ∧ ShotInv (run s inputs) := by
  induction inputs with
  | nil => intro s hA hB hC; exact ⟨hA, hB, hC⟩
  | cons inp rest ih =>
    intro s hA hB hC
    simpa [run] using ih (step s inp) (readyInv_step s inp hA) (freshInv_step s inp hB)
      (shotInv_step s inp hA hB hC)

theorem boundInv_setup (e : SetupInput) : BoundInv (listenerSetup e) := by
  unfold BoundInv listenerSetup
  intro h
  split_ifs at h ⊢ <;> simp_all [State.fail]

theorem boundInv_step (s : State) (inp : Input) (h : BoundInv s) :
    BoundInv (step s inp) := by
  unfold BoundInv at h ⊢
  intro hrun
  unfold step at hrun ⊢
  split at hrun
  · rename_i hs
    have hI := h hs
    split at hrun
    · simp only [selectStep] at hrun ⊢
      split_ifs at hrun ⊢
      · simp [State.fail] at hrun
      · simpa using hI
    · rename_i rd i hpc
      split_ifs at hrun ⊢ with h1 h2 h3
      · simp only [acceptStep] at hrun ⊢
        split_ifs at hrun ⊢ with h4 h5 h6
        · simp [State.fail] at hrun
        · intro fd hfd
          dsimp only at hfd ⊢
          rcases Finset.mem_insert.mp hfd with hfd | hfd
          · subst hfd; exact ⟨h5.1, le_refl _⟩
          · exact ⟨(hI fd hfd).1, by have := (hI fd hfd).2; omega⟩
        · intro fd hfd
          dsimp only at hfd ⊢
          rcases Finset.mem_insert.mp hfd with hfd | hfd
          · subst hfd; exact ⟨h5.1, by omega⟩
          · exact hI fd hfd
      · have hsub : ∀ fd ∈ s.main_sockets_set.erase i, 0 ≤ fd ∧ fd ≤ s.max_socket :=
          fun fd hfd => hI fd (Finset.mem_of_mem_erase hfd)
        rcases hq : strlen (recvInto inp.recv_data) with _ | q <;>
          rcases hst : strtok (recvInto inp.recv_data) delimiters with _ | _ | ⟨a, b⟩ <;>
          rcases hp : inp.page with _ | file <;>
          simp only [clientStep, hq, hst, hp] at hrun ⊢ <;>
          split_ifs at hrun ⊢ <;>
          first
          | (intro fd hfd; exact hsub fd hfd)
          | simp [State.fail] at hrun
          | skip
        all_goals
          rcases hl1 : strlen responseCells with _ | n <;>
          rcases hl2 : strlen (loadPage file).page_buffer with _ | k <;>
          simp only [hl1, hl2] at hrun ⊢ <;>
          first
          | (intro fd hfd; exact hsub fd hfd)
          | simp [State.fail] at hrun
      · simpa using hI
      · simpa using hI
  · rename_i hs
    exact absurd hrun (by simpa using hs)

theorem boundInv_run (inputs : List Input) :
    ∀ s : State, BoundInv s → BoundInv (run s inputs) := by
  induction inputs with
  | nil => intro s h; exact h
  | cons inp rest ih =>
    intro s h
    simpa [run] using ih (step s inp) (boundInv_step s inp h)

/-- The upper bound of the pass is right: in every running state every member of the
Interest Set lies between 0 and `max_socket`. -/
theorem members_up_to_max_socket (e : SetupInput) (inputs : List Input)
    (hrun : (run (listenerSetup e) inputs).status = .running) :
    ∀ fd ∈ (run (listenerSetup e) inputs).main_sockets_set,
      0 ≤ fd ∧ fd ≤ (run (listenerSetup e) inputs).max_socket :=
  boundInv_run inputs (listenerSetup e) (boundInv_setup e) hrun

/-! ## The two buffers -/

theorem fgetcLoop_full (file : List Byte) :
    ∀ (it : Nat) (m : PageMemory), BUFFER_SIZE ≤ it →
      fgetcLoop file it m = { page_buffer := m.page_buffer, beyond := m.beyond ++ file } := by
  induction file with
  | nil => intro it m _; simp [fgetcLoop]
  | cons c rest ih =>
    intro it m hit
    have hnot : ¬ it < BUFFER_SIZE := by omega
    simp [fgetcLoop, hnot, ih (it + 1) _ (by omega : BUFFER_SIZE ≤ it + 1)]

theorem set_append_zeros (w : List Byte) (n : Nat) (c : Byte) :
    (w ++ List.replicate (n + 1) 0).set w.length c = (w ++ [c]) ++ List.replicate n 0 := by
  induction w with
  | nil => simp [List.replicate_succ]
  | cons a w ih => simpa using ih

theorem fgetcLoop_spec (file : List Byte) :
    ∀ (w bey : List Byte), w.length ≤ BUFFER_SIZE →
      fgetcLoop file w.length
          { page_buffer := w ++ List.replicate (BUFFER_SIZE - w.length) 0, beyond := bey }
        = { page_buffer := (w ++ file).take BUFFER_SIZE
              ++ List.replicate (BUFFER_SIZE - (w ++ file).length) 0,
            beyond := bey ++ (w ++ file).drop BUFFER_SIZE } := by
  induction file with
  | nil =>
    intro w bey hw
    simp [fgetcLoop, List.take_of_length_le hw, List.drop_eq_nil_of_le hw]
  | cons c rest ih =>
    intro w bey hw
    rcases Nat.lt_or_ge w.length BUFFER_SIZE with hlt | hge
    · obtain ⟨n, hn⟩ : ∃ n, BUFFER_SIZE - w.length = n + 1 := ⟨BUFFER_SIZE - w.length - 1, by omega⟩
      have hn' : BUFFER_SIZE - (w ++ [c]).length = n := by simp; omega
      have := ih (w ++ [c]) bey (by simp; omega)
      rw [hn'] at this
      simp only [fgetcLoop, hlt, if_true, hn, set_append_zeros]
      have hlen : w.length + 1 = (w ++ [c]).length := by simp
      rw [hlen, this]
      simp
    · have heq : w.length = BUFFER_SIZE := by omega
      rw [fgetcLoop_full _ _ _ (by omega)]
      simp [heq, List.take_append_of_le_length (by omega : BUFFER_SIZE ≤ w.length),
        List.take_of_length_le (by omega : w.length ≤ BUFFER_SIZE),
        List.drop_append_of_le_length (by omega : BUFFER_SIZE ≤ w.length),
        List.drop_eq_nil_of_le (by omega : w.length ≤ BUFFER_SIZE)]

/-- What the copy loop leaves behind: the first 4096 bytes of the file in the array
(zero behind them), every later byte behind the array. -/
theorem loadPage_eq (file : List Byte) :
    loadPage file =
      { page_buffer := file.take BUFFER_SIZE ++ List.replicate (BUFFER_SIZE - file.length) 0,
        beyond := file.drop BUFFER_SIZE } := by
  have := fgetcLoop_spec file [] [] (by simp)
  simpa [loadPage, PageMemory.zero] using this

theorem strlen_append_zeros (w : List Byte) (n : Nat) :
    strlen (w ++ List.replicate (n + 1) 0) = some (w.takeWhile (· ≠ 0)).length := by
  induction w with
  | nil => simp [strlen, List.replicate_succ]
  | cons a w ih =>
    by_cases ha : a = 0
    · simp [strlen, ha]
    · simp [strlen, ha, ih]

theorem strlen_no_terminator (l : List Byte) (h : ∀ b ∈ l, b ≠ 0) : strlen l = none := by
  induction l with
  | nil => rfl
  | cons a l ih =>
    have ha : a ≠ 0 := h a (by simp)
    simp [strlen, ha, ih (fun b hb => h b (by simp [hb]))]

theorem take_takeWhile_append (p : Byte → Bool) (w z : List Byte) :
    (w ++ z).take (w.takeWhile p).length = w.takeWhile p := by
  induction w with
  | nil => simp
  | cons a w ih =>
    by_cases ha : p a
    · simp [List.takeWhile_cons, ha, ih]
    · simp [List.takeWhile_cons, ha]

/-- The literal `response` holds no zero byte: `strlen(response)` is its length. -/
theorem strlen_response : strlen responseCells = some 78 := by decide

theorem take_response : responseCells.take 78 = bytesOf response := by decide

/-! ## The request method -/

theorem recvInto_short (data : List Byte) (h : data.length < BUFFER_SIZE) :
    ∃ n, recvInto data = data ++ List.replicate (n + 1) 0 := by
  refine ⟨BUFFER_SIZE - data.length - 1, ?_⟩
  have h1 : BUFFER_SIZE - data.length - 1 + 1 = BUFFER_SIZE - data.length := by omega
  rw [h1]
  simp [recvInto, List.take_append_eq_append_take, List.take_of_length_le (Nat.le_of_lt h),
    List.take_replicate]

/-- A short receive leaves the zeroed `request` terminated. -/
theorem strlen_recvInto_short (data : List Byte) (h : data.length < BUFFER_SIZE) :
    ∃ q, strlen (recvInto data) = some q := by
  obtain ⟨n, hn⟩ := recvInto_short data h
  rw [hn]
  exact ⟨_, strlen_append_zeros data n⟩

theorem tokenOf_nil_zeros (n : Nat) : tokenOf (List.replicate (n + 1) 0) = none := by
  simp [tokenOf, strtok, strspn, List.replicate_succ]

theorem tokenOf_zero (rest : List Byte) : tokenOf (0 :: rest) = none := by
  simp [tokenOf, strtok, strspn]

theorem tokenOf_space (rest : List Byte) : tokenOf (32 :: rest) = tokenOf rest := by
  unfold tokenOf strtok
  rcases h : strspn rest delimiters with _ | k
  · simp only [delimiters] at h
    simp [strspn, delimiters, h]
  · have h' : strspn (32 :: rest) delimiters = some (k + 1) := by
      simp [strspn, delimiters] at h ⊢
      simp [h]
    rw [h']
    simp only [List.drop_succ_cons]
    rcases hd : rest.drop k with _ | ⟨c, tl⟩
    · simp
    · by_cases hc : c = 0
      · simp [hc]
      · simp only [hc, if_false]
        rcases strcspn (c :: tl) delimiters with _ | len <;> simp [hd]

theorem strcspn_append_zeros (v : List Byte) (n : Nat) :
    strcspn (v ++ List.replicate (n + 1) 0) delimiters
        = some ((cString v).takeWhile (fun c => !isSpace c)).length ∧
      (v ++ List.replicate (n + 1) 0).take ((cString v).takeWhile (fun c => !isSpace c)).length
        = (cString v).takeWhile (fun c => !isSpace c) := by
  induction v with
  | nil => simp [strcspn, cString, List.replicate_succ]
  | cons a v ih =>
    by_cases ha : a = 0
    · simp [strcspn, cString, ha]
    · by_cases hs : a = 32
      · simp [strcspn, cString, hs, isSpace, delimiters]
      · simp [strcspn, cString, ha, hs, isSpace, delimiters, List.takeWhile_cons] at ih ⊢
        simp [ih]

theorem tokenOf_other (a : Byte) (v : List Byte) (n : Nat) (ha : a ≠ 0) (hs : a ≠ 32) :
    tokenOf (a :: v ++ List.replicate (n + 1) 0)
      = some ((cString (a :: v)).takeWhile (fun c => !isSpace c)) := by
  have h := strcspn_append_zeros (a :: v) n
  have hspn : strspn (a :: v ++ List.replicate (n + 1) 0) delimiters = some 0 := by
    simp [strspn, ha, hs, delimiters]
  unfold tokenOf strtok
  rw [hspn]
  simp only [List.drop_zero, List.cons_append, ha, if_false]
  rw [List.cons_append] at h
  rw [h.1]
  simp only [List.drop_zero, h.2]

theorem tokenOf_append_zeros (w : List Byte) (n : Nat) :
    tokenOf (w ++ List.replicate (n + 1) 0) = firstToken isSpace (cString w) := by
  induction w with
  | nil => simp [tokenOf_nil_zeros, firstToken, cString]
  | cons a w ih =>
    by_cases ha : a = 0
    · subst ha
      simp [tokenOf_zero, firstToken, cString]
    · by_cases hs : a = 32
      · subst hs
        rw [List.cons_append, tokenOf_space, ih]
        simp [firstToken, cString, isSpace]
      · rw [tokenOf_other a w n ha hs]
        simp [firstToken, cString, isSpace, ha, hs, List.takeWhile_cons]

/-- C5 as amended. For every received byte sequence shorter than the 4096-byte
buffer, the string `request_type` points at is the first
space-delimited token of the received bytes read as a C string (the bytes before
their first zero byte): the maximal run of non-space bytes that follows any leading
spaces. Only the space byte delimits; tab, carriage return and line feed are
ordinary token bytes. No token is extracted exactly when those bytes are nothing but
spaces. -/
theorem request_method_is_first_space_token (data : List Byte)
    (hlt : data.length < BUFFER_SIZE) :
    request_type data = firstToken isSpace (cString data) ∧
      (request_type data = none ↔ ∀ b ∈ cString data, b = 32) := by
  obtain ⟨n, hn⟩ := recvInto_short data hlt
  have h : request_type data = firstToken isSpace (cString data) := by
    obtain ⟨q, hq⟩ := strlen_recvInto_short data hlt
    simp only [request_type, hq]
    rw [hn, tokenOf_append_zeros]
  refine ⟨h, ?_⟩
  rw [h]
  unfold firstToken
  split
  · rename_i hnil
    simp only [true_iff]
    intro b hb
    have := List.dropWhile_eq_nil_iff.mp hnil b hb
    simpa [isSpace] using this
  · rename_i b rest hcons
    simp only [reduceCtorEq, false_iff]
    intro hall
    have : (cString data).dropWhile isSpace = [] :=
      List.dropWhile_eq_nil_iff.mpr (fun c hc => by simp [isSpace, hall c hc])
    rw [this] at hcons
    exact absurd hcons (by simp)

/-- Witness of C5 as amended: the request line of the specification's scenario. -/
theorem request_method_is_first_space_token_witness :
    request_type (bytesOf "GET / HTTP/1.1\r\n\r\n") = some (bytesOf "GET") :=
  (request_method_is_first_space_token (bytesOf "GET / HTTP/1.1\r\n\r\n")
    (by decide)).1.trans (by decide)

/-- Counterexample to C5 as stated: for the two received bytes "\r\n" the first
whitespace-delimited token does not exist, while `strtok(request, " ")` returns the
token "\r\n". -/
theorem request_method_counterexample :
    firstToken isWhitespace (bytesOf "\r\n") = none ∧
      request_type (bytesOf "\r\n") = some [13, 10] := by
  decide

/-! ## The response -/

/-- The client step that answers: the request yields a token and the file fits in
`page_buffer` with room for the terminator. -/
theorem clientStep_respond (s : State) (rd : Finset Int) (i : Int) (inp : Input)
    (file : List Byte) (q a b : Nat) (hrecv : 1 ≤ inp.recv_ret)
    (hq : strlen (recvInto inp.recv_data) = some q)
    (htok : strtok (recvInto inp.recv_data) delimiters = .token a b)
    (hpage : inp.page = some file) (hlen : file.length < BUFFER_SIZE) :
    clientStep s rd i inp =
      { s with main_sockets_set := s.main_sockets_set.erase i, pc := .loop rd (i + 1),
               trace := s.trace ++
                 [.recv i, .fopen, .send i (bytesOf response), .send i (cString file),
                  .close i] } := by
  have hnot : ¬ inp.recv_ret < 1 := by omega
  obtain ⟨n, hn⟩ : ∃ n, BUFFER_SIZE - file.length = n + 1 :=
    ⟨BUFFER_SIZE - file.length - 1, by omega⟩
  have hload : loadPage file = { page_buffer := file ++ List.replicate (n + 1) 0, beyond := [] } := by
    rw [loadPage_eq, hn, List.take_of_length_le (Nat.le_of_lt hlen),
      List.drop_eq_nil_of_le (Nat.le_of_lt hlen)]
  have hbody : (file ++ List.replicate (n + 1) 0).take (List.takeWhile (· ≠ 0) file).length
      = cString file := take_takeWhile_append _ file _
  simp only [clientStep, hnot, hq, htok, hpage, hload, strlen_response, strlen_append_zeros,
    take_response, hbody]
  simp

/-- The client step on a file that does not fit in `page_buffer`: bytes are stored
behind the array and the step has no defined outcome. -/
theorem clientStep_oversized (s : State) (rd : Finset Int) (i : Int) (inp : Input)
    (file : List Byte) (q a b : Nat) (hrecv : 1 ≤ inp.recv_ret)
    (hq : strlen (recvInto inp.recv_data) = some q)
    (htok : strtok (recvInto inp.recv_data) delimiters = .token a b)
    (hpage : inp.page = some file) (hlen : BUFFER_SIZE < file.length) :
    clientStep s rd i inp =
      { s with status := .undefined, trace := s.trace ++ [.recv i, .fopen] } := by
  have hnot : ¬ inp.recv_ret < 1 := by omega
  have hbeyond : (loadPage file).beyond ≠ [] := by
    rw [loadPage_eq]
    simp only [ne_eq, List.drop_eq_nil_iff]
    omega
  simp [clientStep, hnot, hq, htok, hpage, hbeyond]

/-- C2 as amended. For every ready client descriptor whose receive returns at least
one byte and yields a method token, for every request content and for every resource
content of fewer than 4096 bytes, the step performs exactly two writes on that
descriptor, in this order: first exactly the bytes
"HTTP/1.1 200 OK\r\nConnection: close\r\nContent-Type: text/html; charset=UTF-8\r\n\r\n"
(the same for every request), then exactly the bytes of the resource that precede its
first zero byte, which is the whole resource, unchanged, when it holds no zero byte. -/
theorem wire_response (s : State) (rd : Finset Int) (i : Int) (inp : Input)
    (file tok : List Byte)
    (hrun : s.status = .running) (hpc : s.pc = .loop rd i) (hle : i ≤ s.max_socket)
    (hready : i ∈ rd) (hclient : i ≠ s.server_socket) (hrecv : 1 ≤ inp.recv_ret)
    (htok : request_type inp.recv_data = some tok)
    (hpage : inp.page = some file) (hlen : file.length < BUFFER_SIZE) :
    (step s inp).trace = s.trace ++
        [.recv i, .fopen,
         .send i (bytesOf
           "HTTP/1.1 200 OK\r\nConnection: close\r\nContent-Type: text/html; charset=UTF-8\r\n\r\n"),
         .send i (cString file), .close i] ∧
      ((∀ c ∈ file, c ≠ 0) → cString file = file) := by
  obtain ⟨q, a, b, hq, hst⟩ := request_type_some _ _ htok
  rw [step_client s rd i inp hrun hpc hle hready hclient,
    clientStep_respond s rd i inp file q a b hrecv hq hst hpage hlen]
  refine ⟨rfl, ?_⟩
  intro h
  exact List.takeWhile_eq_self_iff.mpr (fun c hc => by simpa using h c hc)

/-- Witness of C2 as amended: client 4 sends a GET request, the file holds "<p/>". -/
theorem wire_response_witness :
    (step atClient getRequest).trace = atClient.trace ++
      [.recv 4, .fopen,
       .send 4 (bytesOf
         "HTTP/1.1 200 OK\r\nConnection: close\r\nContent-Type: text/html; charset=UTF-8\r\n\r\n"),
       .send 4 (cString (bytesOf "<p/>")), .close 4] :=
  (wire_response atClient {4} 4 getRequest (bytesOf "<p/>") (bytesOf "GET")
    (by decide) (by decide) (by decide) (by decide) (by decide) (by decide) (by decide)
    (by decide) (by decide)).1

/-- Counterexample to C2 as stated: client 4 sends a GET request and the resource is
the three bytes `a`, zero, `b` (at most 4096 bytes); the second write carries the one
byte `a`, not the three bytes of the resource. -/
theorem wire_response_counterexample :
    1 ≤ getRequest.recv_ret ∧ request_type getRequest.recv_data = some (bytesOf "GET") ∧
    ([97, 0, 98] : List Byte).length ≤ 4096 ∧
    (step atClient { getRequest with page := some [97, 0, 98] }).trace.drop
        atClient.trace.length =
      [.recv 4, .fopen, .send 4 (bytesOf response), .send 4 [97], .close 4] ∧
    Sys.send 4 [97, 0, 98] ∉ (step atClient { getRequest with page := some [97, 0, 98] }).trace := by
  decide

/-- A step that writes on `fd` is the answering client step on `fd`: it receives
once, loads the file, writes twice, removes `fd` from the Interest Set and closes it. -/
theorem step_send_shape (s : State) (inp : Input) (fd : Int)
    (hsend : ∃ bytes, Sys.send fd bytes ∈ (step s inp).trace.drop s.trace.length) :
    ∃ body, (step s inp).trace = s.trace ++
        [.recv fd, .fopen, .send fd (bytesOf response), .send fd body, .close fd] ∧
      (step s inp).main_sockets_set = s.main_sockets_set.erase fd ∧
      (step s inp).status = .running := by
  obtain ⟨bytes, hb⟩ := hsend
  unfold step at hb ⊢
  split at hb
  · rename_i hs
    split at hb
    · simp only [selectStep] at hb
      split_ifs at hb <;> simp [State.fail] at hb
    · rename_i rd i hpc
      split_ifs at hb ⊢ with h1 h2 h3
      · simp only [acceptStep] at hb
        split_ifs at hb <;> simp [State.fail] at hb
      · rcases hq : strlen (recvInto inp.recv_data) with _ | q <;>
          rcases hst : strtok (recvInto inp.recv_data) delimiters with _ | _ | ⟨a, b⟩ <;>
          rcases hp : inp.page with _ | file <;>
          simp only [clientStep, hq, hst, hp] at hb ⊢ <;>
          split_ifs at hb ⊢ <;>
          first
          | simp [State.fail] at hb
          | skip
        simp only [strlen_response, take_response] at hb ⊢
        rcases hl2 : strlen (loadPage file).page_buffer with _ | k <;>
          simp only [hl2] at hb ⊢
        · simp at hb
        · have hfd : fd = i := by
            simp at hb
            rcases hb with h | h <;> exact h.1
          subst hfd
          exact ⟨_, rfl, rfl, hs⟩
      · simp at hb
      · simp at hb
  · simp at hb

/-- C4. Single-shot connections. Over every outcome of the Listener Setup and every
sequence of answers of the operating system, at every moment of the run (after each
call of the trace, not only between steps) a descriptor has had at most one `recv` and
at most two `send` calls, one response, since `accept` last returned it: so a client
connection has at most one receive and one response between its accept and its close.
And whenever a step writes on a descriptor, whatever the request holds, that step is:
one receive, the file load, the two writes, then at once the removal of the descriptor
from the Interest Set and its `close`. -/
theorem single_shot (e : SetupInput) (inputs : List Input) (inp : Input) (fd : Int) :
    (∀ t : List Sys, t <+: (run (listenerSetup e) inputs).trace →
      recvCount fd t ≤ 1 ∧ sendCount fd t ≤ 2) ∧
    ((∃ bytes, Sys.send fd bytes ∈
        (step (run (listenerSetup e) inputs) inp).trace.drop
          (run (listenerSetup e) inputs).trace.length) →
      ∃ body, (step (run (listenerSetup e) inputs) inp).trace =
          (run (listenerSetup e) inputs).trace ++
            [.recv fd, .fopen, .send fd (bytesOf response), .send fd body, .close fd] ∧
        (step (run (listenerSetup e) inputs) inp).main_sockets_set =
          (run (listenerSetup e) inputs).main_sockets_set.erase fd ∧
        fd ∉ (step (run (listenerSetup e) inputs) inp).main_sockets_set) := by
  refine ⟨(shot_run inputs _ (readyInv_setup e) (freshInv_setup e) (shotInv_setup e)).2.2 fd,
    ?_⟩
  intro hsend
  obtain ⟨body, h1, h2, _⟩ := step_send_shape _ inp fd hsend
  exact ⟨body, h1, h2, by rw [h2]; simp⟩

/-- Witness of C4: client 4 is answered and dropped in one step, and has had no more
than one receive at the moment it is ready. -/
theorem single_shot_witness :
    4 ∉ (step (run (listenerSetup setupOk) toClient) getRequest).main_sockets_set ∧
      recvCount 4 (run (listenerSetup setupOk) toClient).trace ≤ 1 :=
  ⟨((single_shot setupOk toClient getRequest 4).2
      ⟨cString (bytesOf "<p/>"), by decide⟩).elim (fun _ hb => hb.2.2),
    ((single_shot setupOk toClient getRequest 4).1 _ (List.prefix_refl _)).1⟩

/-! ## Defects -/

/-- A file longer than `page_buffer` with no zero byte: its tail is stored behind the
array and the array is left without a terminator. -/
theorem loadPage_oversized (file : List Byte) (hlen : BUFFER_SIZE < file.length)
    (hnz : ∀ b ∈ file, b ≠ 0) :
    (loadPage file).beyond = file.drop BUFFER_SIZE ∧
      strlen (loadPage file).page_buffer = none := by
  rw [loadPage_eq]
  refine ⟨rfl, strlen_no_terminator _ ?_⟩
  intro b hb
  have h0 : BUFFER_SIZE - file.length = 0 := by omega
  simp only [h0, List.replicate_zero, List.append_nil] at hb
  exact hnz b (List.mem_of_mem_take hb)

/-- C7, evaluated at a resource of 4097 bytes `a`: the copy loop stores the last byte
at `page_buffer[4096]`, behind the array; the array is left without a terminator, so
`strlen(page_buffer)` has no defined value; the answering step has no defined
outcome. -/
theorem oversized_resource_overflows :
    (loadPage (List.replicate 4097 97)).beyond = [97] ∧
      strlen (loadPage (List.replicate 4097 97)).page_buffer = none ∧
      (step atClient { getRequest with page := some (List.replicate 4097 97) }).status
        = .undefined :=
  have hlen : BUFFER_SIZE < (List.replicate 4097 (97 : Byte)).length := by
    rw [List.length_replicate]; decide
  have hnz : ∀ b ∈ List.replicate 4097 (97 : Byte), b ≠ 0 := fun b hb => by
    rw [List.eq_of_mem_replicate hb]; decide
  have h := loadPage_oversized _ hlen hnz
  have hdrop : List.drop BUFFER_SIZE (List.replicate 4097 (97 : Byte)) = [97] :=
    (List.drop_replicate 97 BUFFER_SIZE 4097).trans (by decide)
  have hstep := clientStep_oversized atClient {4} 4
    { getRequest with page := some (List.replicate 4097 97) } (List.replicate 4097 97)
    18 0 3 (by decide) (by decide) (by decide) rfl hlen
  ⟨h.1.trans hdrop, h.2, by
    rw [step_client atClient {4} 4 _ (by decide) (by decide) (by decide) (by decide)
      (by decide), hstep]⟩

/-- C8, evaluated at a failing address resolution (`getaddrinfo` returns `EAI_SERVICE`,
`-8`, the other calls would succeed): nothing is written to `std::cerr`, `main` does
not return, and the unset `server_address` is read. -/
theorem unchecked_getaddrinfo :
    (listenerSetup ⟨-8, 3, 0, 0⟩).trace = [] ∧
      (listenerSetup ⟨-8, 3, 0, 0⟩).status = .undefined ∧
      (listenerSetup ⟨-8, 3, 0, 0⟩).status ≠ .exited EXIT_FAILURE := by
  decide

/-- The three checked steps of the Listener Setup: a failing `socket`, `bind` or
`listen` is reported on `std::cerr` and `main` returns `EXIT_FAILURE` before the loop. -/
theorem checked_setup_steps (e : SetupInput) (h0 : e.getaddrinfo_ret = 0) :
    (e.socket_ret = -1 →
        (listenerSetup e).status = .exited EXIT_FAILURE ∧
        (listenerSetup e).trace = [.cerr "socket() failed"]) ∧
      (e.socket_ret ≠ -1 → e.bind_ret ≠ 0 →
        (listenerSetup e).status = .exited EXIT_FAILURE ∧
        (listenerSetup e).trace = [.cerr "bind() failed"]) ∧
      (e.socket_ret ≠ -1 → e.bind_ret = 0 → e.listen_ret = -1 →
        (listenerSetup e).status = .exited EXIT_FAILURE ∧
        (listenerSetup e).trace = [.cerr "listen() failed"]) := by
  refine ⟨?_, ?_, ?_⟩
  · intro h1
    simp [listenerSetup, State.fail, h0, h1]
  · intro h1 h2
    simp [listenerSetup, State.fail, h0, h1, h2]
  · intro h1 h2 h3
    simp [listenerSetup, State.fail, h0, h1, h2, h3]

/-- C10, evaluated at a listening descriptor 0 (`socket` returns 0 when descriptor 0
is free): 0 is the only member of the Interest Set, `select` marks it ready, the pass
starts at `i = 1`, finds `1 <= max_socket` false and ends; descriptor 0 was not
visited and no `accept` was made. -/
theorem descriptor_zero_not_visited :
    (listenerSetup ⟨0, 0, 0, 0⟩).status = .running ∧
      (listenerSetup ⟨0, 0, 0, 0⟩).main_sockets_set = {0} ∧
      (listenerSetup ⟨0, 0, 0, 0⟩).max_socket = 0 ∧
      (step (listenerSetup ⟨0, 0, 0, 0⟩) { quiet with ready := {0} }).pc = .loop {0} 1 ∧
      run (listenerSetup ⟨0, 0, 0, 0⟩)
          [{ quiet with ready := {0} }, { quiet with accept_ret := 4 }] =
        { server_socket := 0, main_sockets_set := {0}, max_socket := 0, pc := .top,
          status := .running, trace := [.select 1] } := by
  decide

end ExServer
